import Mathlib

/-!
Verification development for the voxel cellular-automata simulation core
(`src/simulation.rs`).  The Rust code is shallowly embedded: machine
integers (`u8`, `u16`, `u64`, `usize`) become `Nat` with explicit
truncation (`% 2 ^ w`, `&&& mask`) where overflow or wrapping matters,
`i32` chunk coordinates become `Int`, `f32` quantities (clock
accumulator, speed factor, budget) become exact rationals `ℚ`, slices
become `List`, `HashMap` lookup tables become functions into `Option`,
and panicking operations return `Option`.
-/

namespace VoxelSim

set_option maxRecDepth 8000

/-- Edge length of a simulation chunk in voxels (`CHUNK_EDGE`). -/
def CHUNK_EDGE : Int := 32

/-- Number of voxels contained inside a chunk (`CHUNK_VOLUME`). -/
def CHUNK_VOLUME : Nat := 32 * 32 * 32

/-- Fixed time step used to advance the cellular automata
(`FIXED_STEP_SECONDS = 1.0 / 60.0`). -/
def FIXED_STEP_SECONDS : ℚ := 1 / 60

/-- Bias applied to chunk coordinates before Morton encoding
(`MORTON_BIAS = 1 << 20`). -/
def MORTON_BIAS : Int := 2 ^ 20

/-- Modelled from the spec: the crate-root `Flags::AUTOMATA_FLAG` constant
(the automata-active bit in the high flag byte) is not part of `src/`;
the spec only requires it to be a fixed bit of the flag bitset.  It is
modelled as bit 0.  None of the verified properties depend on which
nonzero bit is chosen. -/
def AUTOMATA_FLAG : Nat := 1

/-- Packed material/flag state stored per voxel (`AutomataState`),
a 16-bit value: low byte material, high byte flags. -/
structure AutomataState where
  encoded : Nat
deriving DecidableEq, Repr

/-- Constructs a state from palette material and flag byte
(`AutomataState::from_components`); the `% 256` renders the `u8`
argument types. -/
def AutomataState.from_components (material flags : Nat) : AutomataState :=
  ⟨((flags % 256) <<< 8) ||| (material % 256)⟩

/-- Constructs a state from the packed 16-bit value
(`AutomataState::from_packed`); the `% 65536` renders the `u16` type. -/
def AutomataState.from_packed (encoded : Nat) : AutomataState :=
  ⟨encoded % 65536⟩

/-- Returns the packed 16-bit representation (`AutomataState::to_packed`). -/
def AutomataState.to_packed (s : AutomataState) : Nat :=
  s.encoded

/-- Returns the palette material index stored in the low byte
(`AutomataState::material`, `encoded & 0x00FF`). -/
def AutomataState.material (s : AutomataState) : Nat :=
  s.encoded &&& 0xFF

/-- Returns the voxel flags stored in the high byte
(`AutomataState::flags`, `encoded >> 8`). -/
def AutomataState.flags (s : AutomataState) : Nat :=
  s.encoded >>> 8

/-- Returns true when the voxel stores no material or flags
(`AutomataState::is_empty`). -/
def AutomataState.is_empty (s : AutomataState) : Bool :=
  s.encoded == 0

/-- Returns true when the voxel contains any material
(`AutomataState::is_solid`). -/
def AutomataState.is_solid (s : AutomataState) : Bool :=
  s.material != 0

/-- Returns true when the voxel participates in the automata rule set
(`AutomataState::is_alive`). -/
def AutomataState.is_alive (s : AutomataState) : Bool :=
  (s.flags &&& AUTOMATA_FLAG != 0) && s.is_solid

/-- Returns true when the voxel should be treated as immutable geometry
(`AutomataState::is_static`). -/
def AutomataState.is_static (s : AutomataState) : Bool :=
  s.is_solid && !s.is_alive

/-- Replaces the palette material (`AutomataState::with_material`). -/
def AutomataState.with_material (s : AutomataState) (material : Nat) : AutomataState :=
  AutomataState.from_components material s.flags

/-- Replaces the flag byte (`AutomataState::with_flags`). -/
def AutomataState.with_flags (s : AutomataState) (flags : Nat) : AutomataState :=
  AutomataState.from_components s.material flags

/-- Birth/survival rule configured for the MVP (`AutomataRule`). -/
structure AutomataRule where
  birth : List Nat
  survive : List Nat
  birth_material : Nat
  birth_flags : Nat
  inactive_state : AutomataState
deriving DecidableEq, Repr

/-- The `Default` instance for `AutomataRule`: the 3D Life variant
B5/S45 with birth material 1, birth flags `AUTOMATA_FLAG`, and the
all-zero inactive state. -/
def default_rule : AutomataRule :=
  ⟨[5], [4, 5], 1, AUTOMATA_FLAG, ⟨0⟩⟩

/-- State used when a new automata voxel is born
(`AutomataRule::alive_template`). -/
def AutomataRule.alive_template (r : AutomataRule) : AutomataState :=
  AutomataState.from_components r.birth_material (r.birth_flags ||| AUTOMATA_FLAG)

/-- The rule engine (`AutomataRule::next_state`): static voxels pass
through unchanged; alive voxels survive when the neighbor count is in
the survival set (OR-ing in the non-alive birth-flag bits) and fall to
the inactive state otherwise; non-static, non-alive voxels are born when
the neighbor count is in the birth set.  `255 ^^^ AUTOMATA_FLAG` renders
the `u8` complement `!Flags::AUTOMATA_FLAG`. -/
def AutomataRule.next_state (r : AutomataRule) (current : AutomataState)
    (neighbors : Nat) : AutomataState :=
  if current.is_static then current
  else if current.is_alive then
    if r.survive.contains neighbors then
      current.with_flags ((current.flags ||| AUTOMATA_FLAG) |||
        (r.birth_flags &&& (255 ^^^ AUTOMATA_FLAG)))
    else r.inactive_state
  else if r.birth.contains neighbors then r.alive_template
  else r.inactive_state

/-- Signed 3D integer vector (`IVec3`), used for chunk coordinates,
local voxel coordinates and neighbor offsets. -/
structure I3 where
  x : Int
  y : Int
  z : Int
deriving DecidableEq, Repr

/-- Resource controlling the simulation playback speed
(`SimulationSpeed`); `f32` fields modelled as exact rationals. -/
structure SimulationSpeed where
  factor : ℚ
  min_factor : ℚ
  max_factor : ℚ
deriving DecidableEq, Repr

/-- Tracks how much CPU time the simulation consumed
(`SimulationBudget`); `f32` fields modelled as exact rationals. -/
structure SimulationBudget where
  target_ms : ℚ
  smoothing : ℚ
  rolling_ms : ℚ
deriving DecidableEq, Repr

/-- Speed feedback (`SimulationSpeed::apply_budget_feedback`): shrink
the factor by 0.9 (clamped to `min_factor`) when the rolling cost
exceeds the target, grow it by 1.05 (clamped to `max_factor`) when the
rolling cost is below half the target, and leave it unchanged in
between. -/
def SimulationSpeed.apply_budget_feedback (s : SimulationSpeed)
    (budget : SimulationBudget) : SimulationSpeed :=
  if budget.rolling_ms > budget.target_ms then
    { s with factor := max (s.factor * (9 / 10)) s.min_factor }
  else if budget.rolling_ms < budget.target_ms * (1 / 2) then
    { s with factor := min (s.factor * (21 / 20)) s.max_factor }
  else s

/-- Exponential moving average of step cost
(`SimulationBudget::record_step`), seeded by the first observed sample. -/
def SimulationBudget.record_step (b : SimulationBudget) (elapsed_ms : ℚ) :
    SimulationBudget :=
  if b.rolling_ms = 0 then { b with rolling_ms := elapsed_ms }
  else { b with rolling_ms := b.rolling_ms + b.smoothing * (elapsed_ms - b.rolling_ms) }

/-- Fixed-step clock state (`SimulationClock`). -/
structure SimulationClock where
  accumulator : ℚ
  steps_requested : Nat
  executed_step : Bool
deriving DecidableEq, Repr

/-- The clock phase (`tick_simulation`): accumulate scaled delta time,
reset `steps_requested` and `executed_step`, and request exactly one
step when the accumulator reaches `FIXED_STEP_SECONDS`, retaining the
excess. -/
def tick_simulation (delta : ℚ) (clock : SimulationClock)
    (speed : SimulationSpeed) : SimulationClock :=
  if clock.accumulator + delta * speed.factor ≥ FIXED_STEP_SECONDS then
    { accumulator := clock.accumulator + delta * speed.factor -
        FIXED_STEP_SECONDS, steps_requested := 1, executed_step := false }
  else
    { accumulator := clock.accumulator + delta * speed.factor,
      steps_requested := 0, executed_step := false }

/-- Rust numeric cast of a signed integer to a 64-bit unsigned machine
integer (`as usize` / `as u64` on a 64-bit target): two's-complement
reduction modulo `2 ^ 64`. -/
def to_u64 (i : Int) : Nat :=
  (i % (2 : Int) ^ 64).toNat

/-- Row-major linearisation of a local voxel coordinate
(`linear_index`): each component is cast `as usize` before the index is
formed. -/
def linear_index (lv : I3) : Nat :=
  to_u64 lv.x * 32 * 32 + to_u64 lv.y * 32 + to_u64 lv.z

/-- The snapshot table (`ChunkSnapshots::get`): a lookup from chunk
coordinates to an immutable copy of that chunk's current buffer.  A
`HashMap` is modelled as its lookup function. -/
def Snapshots : Type :=
  I3 → Option (List AutomataState)

/-- One axis of the boundary wrap in `sample_cell`: a local coordinate
falling outside `[0, CHUNK_EDGE)` moves to the adjacent chunk with the
local coordinate wrapped by one edge length.  Returns the adjusted
(chunk coordinate, local coordinate) pair. -/
def wrap_axis (chunk_coord lv : Int) : Int × Int :=
  if lv < 0 then (chunk_coord - 1, lv + CHUNK_EDGE)
  else if lv ≥ CHUNK_EDGE then (chunk_coord + 1, lv - CHUNK_EDGE)
  else (chunk_coord, lv)

/-- Cross-boundary voxel sampling (`sample_cell`): re-derive the
neighbor chunk coordinate and wrapped local coordinate on each axis,
then look the chunk up in the snapshot table; an absent chunk yields
`none`.  The Rust `chunk[index]` (which panics when out of bounds) is
rendered as `getElem?`; in-bounds-ness is proved separately. -/
def sample_cell (snapshots : Snapshots) (chunk_coords lv : I3) :
    Option AutomataState :=
  let px := wrap_axis chunk_coords.x lv.x
  let py := wrap_axis chunk_coords.y lv.y
  let pz := wrap_axis chunk_coords.z lv.z
  match snapshots ⟨px.1, py.1, pz.1⟩ with
  | some chunk => chunk[linear_index ⟨px.2, py.2, pz.2⟩]?
  | none => none

/-- Loop range `-1..=1` used by the neighbor scan. -/
def offset_range : List Int :=
  [-1, 0, 1]

/-- The saturating `u8` increment applied per live neighbor
(`count.saturating_add(1)`). -/
def sat_inc (count : Nat) : Nat :=
  min (count + 1) 255

/-- Live-neighbor counting (`count_active_neighbors`): scan the 27
offsets at Chebyshev distance at most 1, skip the center, and add one
(saturating) for every sampled voxel that is alive; absent chunks
contribute nothing. -/
def count_active_neighbors (snapshots : Snapshots) (chunk_coords lv : I3) :
    Nat :=
  offset_range.foldl (fun cx dx =>
    offset_range.foldl (fun cy dy =>
      offset_range.foldl (fun cz dz =>
        if dx = 0 ∧ dy = 0 ∧ dz = 0 then cz
        else
          match sample_cell snapshots chunk_coords
              ⟨lv.x + dx, lv.y + dy, lv.z + dz⟩ with
          | some value => if value.is_alive then sat_inc cz else cz
          | none => cz) cy) cx) 0

/-- A chunk-sized buffer produced by a per-coordinate generator in the
fixed x-outer, y-middle, z-inner traversal order
(`ChunkCells::from_generator`). -/
def buffer_of_fn (generator : I3 → AutomataState) : List AutomataState :=
  (List.range 32).flatMap fun (x : Nat) =>
    (List.range 32).flatMap fun (y : Nat) =>
      (List.range 32).map fun (z : Nat) =>
        generator ⟨Int.ofNat x, Int.ofNat y, Int.ofNat z⟩

/-- One chunk evaluation (`step_chunk`): for every local coordinate in
the fixed traversal order, apply the rule to the current voxel and its
live-neighbor count and write the result at that coordinate's linear
index.  The Rust loop writes `output[linear_index(x,y,z)]` while
iterating `(x,y,z)` lexicographically, which produces exactly the
buffer in index order. -/
def step_chunk (current_chunk : List AutomataState) (coords : I3)
    (snapshots : Snapshots) (rule : AutomataRule) : List AutomataState :=
  buffer_of_fn fun lv =>
    rule.next_state ((current_chunk[linear_index lv]?).getD ⟨0⟩)
      (count_active_neighbors snapshots coords lv)

/-- Bulk overwrite of a chunk's current buffer from a flat buffer of
voxel states (`ChunkCells::write_from_slice`).  The Rust
`copy_from_slice` panics unless the two lengths agree; the panic is
rendered as `none`. -/
def write_from_slice (self data : List AutomataState) :
    Option (List AutomataState) :=
  if data.length = self.length then some data else none

/-- Bulk overwrite of a chunk's current buffer from packed 16-bit
values (`ChunkCells::write_from_packed`).  The length contract is the
code's `debug_assert_eq!(data.len(), self.data.len())`, rendered as a
guard returning `none` on violation. -/
def write_from_packed (self : List AutomataState) (data : List Nat) :
    Option (List AutomataState) :=
  if data.length = self.length then
    some (data.map AutomataState.from_packed)
  else none

/-- One simulated chunk: its integer coordinates together with its
"current" (`ChunkCells`) and "next" (`ChunkCellsNext`) buffers. -/
structure Chunk where
  coords : I3
  cells : List AutomataState
  next : List AutomataState

/-- The simulation world as seen by the four per-tick systems: the
clock, speed and budget resources, the configured rule, the loaded
chunks (the ECS query results, in iteration order) and the snapshot
table resource.  The `ChunkIndex` coordinate-to-entity map is rebuilt
alongside the snapshots purely for external collaborators and is never
read by the simulation phases, so it is not modelled. -/
structure World where
  clock : SimulationClock
  speed : SimulationSpeed
  budget : SimulationBudget
  rule : AutomataRule
  chunks : List Chunk
  snapshots : Snapshots

/-- The snapshot phase (`snapshot_chunks`): a no-op unless a step was
requested; otherwise the snapshot table is rebuilt wholesale from every
chunk's current buffer, keyed by coordinates. -/
def snapshot_chunks (w : World) : World :=
  if w.clock.steps_requested = 0 then w
  else
    { w with snapshots := fun c =>
        (w.chunks.find? fun ch => ch.coords = c).map Chunk.cells }

/-- The evaluation phase (`step_chunks`): a no-op unless a step was
requested; otherwise every chunk's next buffer is produced by
`step_chunk` from its snapshot (falling back to its live current buffer
when no snapshot exists), the measured wall-clock cost of the pass --
an external input here, `elapsed_ms` -- is recorded in the budget, the
speed feedback is applied, `steps_requested` is cleared and
`executed_step` is set. -/
def step_chunks (elapsed_ms : ℚ) (w : World) : World :=
  if w.clock.steps_requested = 0 then w
  else
    let chunks := w.chunks.map fun ch =>
      match w.snapshots ch.coords with
      | some snapshot =>
          { ch with next := step_chunk snapshot ch.coords w.snapshots w.rule }
      | none =>
          { ch with next := step_chunk ch.cells ch.coords w.snapshots w.rule }
    let budget := w.budget.record_step elapsed_ms
    { w with
      chunks := chunks
      budget := budget
      speed := w.speed.apply_budget_feedback budget
      clock := { w.clock with steps_requested := 0, executed_step := true } }

/-- The commit phase (`apply_next_cells`): a no-op unless a step
executed this tick; otherwise every chunk's next buffer is copied into
its current buffer (`write_from_slice`, whose length contract is met
because both buffers always hold `CHUNK_VOLUME` voxels) and the
executed flag is cleared. -/
def apply_next_cells (w : World) : World :=
  if !w.clock.executed_step then w
  else
    { w with
      chunks := w.chunks.map fun ch =>
        { ch with cells := (write_from_slice ch.cells ch.next).getD ch.cells }
      clock := { w.clock with executed_step := false } }

/-- One whole external tick: the four systems in schedule order
(`First`: clock, `PreUpdate`: snapshot, `Update`: evaluate,
`PostUpdate`: commit). -/
def run_tick (delta elapsed_ms : ℚ) (w : World) : World :=
  apply_next_cells (step_chunks elapsed_ms
    (snapshot_chunks { w with clock := tick_simulation delta w.clock w.speed }))

/-- One recorded step cost followed by the speed feedback, in the order
`step_chunks` performs them (`budget.record_step(elapsed_ms)` then
`speed.apply_budget_feedback(&budget)`), as a transformer on the
(speed, budget) resource pair. -/
def feedback_step (p : SimulationSpeed × SimulationBudget) (cost : ℚ) :
    SimulationSpeed × SimulationBudget :=
  (p.1.apply_budget_feedback (p.2.record_step cost), p.2.record_step cost)

/-- Bit dilation (`part1by2`): spread the low 21 bits of a 64-bit value
so that bit `i` moves to bit `3 * i`.  Every shift is a `u64` shift,
rendered by an explicit `% 2 ^ 64`. -/
def part1by2 (n : Nat) : Nat :=
  let n1 := n &&& 0x1fffff
  let n2 := (n1 ||| (n1 <<< 32 % 2 ^ 64)) &&& 0x1f00000000ffff
  let n3 := (n2 ||| (n2 <<< 16 % 2 ^ 64)) &&& 0x1f0000ff0000ff
  let n4 := (n3 ||| (n3 <<< 8 % 2 ^ 64)) &&& 0x100f00f00f00f00f
  let n5 := (n4 ||| (n4 <<< 4 % 2 ^ 64)) &&& 0x10c30c30c30c30c3
  (n5 ||| (n5 <<< 2 % 2 ^ 64)) &&& 0x1249249249249249

/-- Morton spatial key (`morton_encode`): bias each coordinate, cast it
`as u64`, dilate, and interleave the three axes. -/
def morton_encode (coords : I3) : Nat :=
  let x := to_u64 (coords.x + MORTON_BIAS)
  let y := to_u64 (coords.y + MORTON_BIAS)
  let z := to_u64 (coords.z + MORTON_BIAS)
  part1by2 x ||| (part1by2 y <<< 1 % 2 ^ 64) ||| (part1by2 z <<< 2 % 2 ^ 64)

/-- The biased-coordinate range supported by the Morton key: every
biased component fits in 21 bits. -/
def in_morton_range (c : I3) : Prop :=
  0 ≤ c.x + MORTON_BIAS ∧ c.x + MORTON_BIAS < 2 ^ 21 ∧
  0 ≤ c.y + MORTON_BIAS ∧ c.y + MORTON_BIAS < 2 ^ 21 ∧
  0 ≤ c.z + MORTON_BIAS ∧ c.z + MORTON_BIAS < 2 ^ 21

instance (c : I3) : Decidable (in_morton_range c) := by
  unfold in_morton_range; infer_instance

/-- A snapshot table in which every stored buffer is generated by a
per-coordinate function: the shape every concrete scenario below uses.
Proofs reduce sampling from such a table to plain function evaluation,
which keeps all concrete computations off the 32768-element lists. -/
def fn_snapshots (F : I3 → Option (I3 → AutomataState)) : Snapshots :=
  fun c => (F c).map buffer_of_fn

/-- Function-level mirror of `count_active_neighbors` over a
function-backed snapshot table: identical fold, with each sample
replaced by direct generator evaluation at the wrapped coordinate.
`count_active_neighbors_fn` proves the two agree. -/
def count_fn_val (F : I3 → Option (I3 → AutomataState)) (chunk_coords lv : I3) :
    Nat :=
  offset_range.foldl (fun cx dx =>
    offset_range.foldl (fun cy dy =>
      offset_range.foldl (fun cz dz =>
        if dx = 0 ∧ dy = 0 ∧ dz = 0 then cz
        else
          match
            (F ⟨(wrap_axis chunk_coords.x (lv.x + dx)).1,
                (wrap_axis chunk_coords.y (lv.y + dy)).1,
                (wrap_axis chunk_coords.z (lv.z + dz)).1⟩).map
              (fun g => g ⟨(wrap_axis chunk_coords.x (lv.x + dx)).2,
                           (wrap_axis chunk_coords.y (lv.y + dy)).2,
                           (wrap_axis chunk_coords.z (lv.z + dz)).2⟩) with
          | some value => if value.is_alive then sat_inc cz else cz
          | none => cz) cy) cx) 0

/-- An alive voxel with material 1, as used by the repository's own
tests (`AutomataState::from_components(1, Flags::AUTOMATA_FLAG)`). -/
def alive1 : AutomataState :=
  AutomataState.from_components 1 AUTOMATA_FLAG

/-- Generator for the end-to-end scenario chunk: empty everywhere
except a 3x3x3 cube of alive voxels centered at local (16,16,16). -/
def cube_g (v : I3) : AutomataState :=
  if 15 ≤ v.x ∧ v.x ≤ 17 ∧ 15 ≤ v.y ∧ v.y ≤ 17 ∧ 15 ≤ v.z ∧ v.z ≤ 17 then
    alive1
  else ⟨0⟩

/-- The end-to-end scenario's table of generators: a single isolated
chunk at coordinate (0,0,0). -/
def cube_F (c : I3) : Option (I3 → AutomataState) :=
  if c = ⟨0, 0, 0⟩ then some cube_g else none

/-- The end-to-end scenario chunk buffer. -/
def cube_buffer : List AutomataState :=
  buffer_of_fn cube_g

/-- Snapshot table holding the single isolated scenario chunk at
coordinate (0,0,0). -/
def cube_snapshots : Snapshots :=
  fn_snapshots cube_F

/-- Result of one simulated step of the end-to-end scenario chunk. -/
def cube_out : List AutomataState :=
  step_chunk cube_buffer ⟨0, 0, 0⟩ cube_snapshots default_rule

/-- The eight corner voxels of the scenario cube. -/
def cube_corners : List I3 :=
  [⟨15, 15, 15⟩, ⟨15, 15, 17⟩, ⟨15, 17, 15⟩, ⟨15, 17, 17⟩,
   ⟨17, 15, 15⟩, ⟨17, 15, 17⟩, ⟨17, 17, 15⟩, ⟨17, 17, 17⟩]

/-- Generator for the cross-boundary test chunk (0,0,0): alive only at
local (31,31,31). -/
def hi_corner_g (v : I3) : AutomataState :=
  if v.x = 31 ∧ v.y = 31 ∧ v.z = 31 then alive1 else ⟨0⟩

/-- Generator for the cross-boundary test chunk (1,1,1): alive only at
local (0,0,0). -/
def lo_corner_g (v : I3) : AutomataState :=
  if v.x = 0 ∧ v.y = 0 ∧ v.z = 0 then alive1 else ⟨0⟩

/-- Generator table for the cross-boundary test: exactly two chunks,
(0,0,0) and (1,1,1). -/
def two_chunk_F (c : I3) : Option (I3 → AutomataState) :=
  if c = ⟨0, 0, 0⟩ then some hi_corner_g
  else if c = ⟨1, 1, 1⟩ then some lo_corner_g
  else none

/-- Snapshot table with exactly two chunks, (0,0,0) and (1,1,1), as in
the repository's `neighbor_lookup_crosses_chunk_boundary` test. -/
def two_chunk_snapshots : Snapshots :=
  fn_snapshots two_chunk_F

/-- Generator with exactly five alive voxels, all adjacent to the empty
cell at local (10,10,10): a concrete birth configuration. -/
def five_g (v : I3) : AutomataState :=
  if (v.x = 9 ∧ v.y = 10 ∧ v.z = 10) ∨ (v.x = 11 ∧ v.y = 10 ∧ v.z = 10) ∨
     (v.x = 10 ∧ v.y = 9 ∧ v.z = 10) ∨ (v.x = 10 ∧ v.y = 11 ∧ v.z = 10) ∨
     (v.x = 10 ∧ v.y = 10 ∧ v.z = 9) then
    alive1
  else ⟨0⟩

/-- Generator table holding the five-neighbor chunk at (0,0,0). -/
def five_F (c : I3) : Option (I3 → AutomataState) :=
  if c = ⟨0, 0, 0⟩ then some five_g else none

/-- Chunk buffer for the five-neighbor birth configuration. -/
def five_buffer : List AutomataState :=
  buffer_of_fn five_g

/-- Snapshot table holding the five-neighbor chunk at (0,0,0). -/
def five_snapshots : Snapshots :=
  fn_snapshots five_F

/-! ### List infrastructure: indexing flattened generator buffers -/

theorem length_flatMap_uniform {α β : Type} (L : List α) (f : α → List β) (m : Nat)
    (hm : ∀ a ∈ L, (f a).length = m) : (L.flatMap f).length = L.length * m := by
  induction L with
  | nil => simp
  | cons a L ih =>
    simp only [List.flatMap_cons, List.length_append, List.length_cons]
    rw [hm a (by simp), ih fun b hb => hm b (by simp [hb])]
    ring

theorem getElem?_flatMap_uniform {α β : Type} (L : List α) (f : α → List β)
    (m i j : Nat) (hm : ∀ a ∈ L, (f a).length = m) (hi : i < L.length)
    (hj : j < m) :
    (L.flatMap f)[i * m + j]? = (f (L.get ⟨i, hi⟩))[j]? := by
  induction L generalizing i with
  | nil => simp at hi
  | cons a L ih =>
    cases i with
    | zero =>
      simp only [List.flatMap_cons, Nat.zero_mul, Nat.zero_add]
      rw [List.getElem?_append_left (by rw [hm a (by simp)]; exact hj)]
      rfl
    | succ i =>
      have ha : (f a).length = m := hm a (by simp)
      have hmul : (i + 1) * m = i * m + m := by ring
      have hle : (f a).length ≤ (i + 1) * m + j := by rw [ha]; omega
      simp only [List.flatMap_cons]
      rw [List.getElem?_append_right hle, ha]
      have hidx : (i + 1) * m + j - m = i * m + j := by omega
      rw [hidx]
      exact ih i (fun b hb => hm b (List.mem_cons_of_mem a hb)) (by simpa using hi)

theorem buffer_of_fn_getElem? (g : I3 → AutomataState) (x y z : Nat)
    (hx : x < 32) (hy : y < 32) (hz : z < 32) :
    (buffer_of_fn g)[x * 1024 + y * 32 + z]? =
      some (g ⟨Int.ofNat x, Int.ofNat y, Int.ofNat z⟩) := by
  unfold buffer_of_fn
  have hm : ∀ a ∈ List.range 32,
      ((List.range 32).flatMap fun (y : Nat) =>
        (List.range 32).map fun (z : Nat) =>
          g ⟨Int.ofNat a, Int.ofNat y, Int.ofNat z⟩).length = 1024 := by
    intro a _
    rw [length_flatMap_uniform _ _ 32 (by intro b _; simp)]
    simp
  have hj : y * 32 + z < 1024 := by omega
  rw [Nat.add_assoc,
    getElem?_flatMap_uniform _ _ 1024 x (y * 32 + z) hm (by simpa using hx) hj]
  have hx' : (List.range 32).get ⟨x, by simpa using hx⟩ = x := by
    simp [List.get_eq_getElem]
  rw [hx']
  rw [getElem?_flatMap_uniform _ _ 32 y z (by intro b _; simp)
    (by simpa using hy) hz]
  have hy' : (List.range 32).get ⟨y, by simpa using hy⟩ = y := by
    simp [List.get_eq_getElem]
  rw [hy']
  simp [List.getElem?_range hz]

/-! ### Sampling over function-backed snapshot tables -/

theorem to_u64_of_nonneg {i : Int} (h0 : 0 ≤ i) (h1 : i < 2 ^ 64) :
    to_u64 i = i.toNat := by
  unfold to_u64
  rw [Int.emod_eq_of_lt h0 h1]

theorem linear_index_eval (a b c : Int) (ha0 : 0 ≤ a) (ha1 : a < 32)
    (hb0 : 0 ≤ b) (hb1 : b < 32) (hc0 : 0 ≤ c) (hc1 : c < 32) :
    linear_index ⟨a, b, c⟩ = a.toNat * 1024 + b.toNat * 32 + c.toNat := by
  have hp : (2 : Int) ^ 64 = 18446744073709551616 := by norm_num
  show to_u64 a * 32 * 32 + to_u64 b * 32 + to_u64 c = _
  rw [to_u64_of_nonneg ha0 (by omega), to_u64_of_nonneg hb0 (by omega),
    to_u64_of_nonneg hc0 (by omega)]
  omega

theorem wrap_axis_snd_bounds (c l : Int) (h0 : -32 ≤ l) (h1 : l < 64) :
    0 ≤ (wrap_axis c l).2 ∧ (wrap_axis c l).2 < 32 := by
  unfold wrap_axis CHUNK_EDGE
  split_ifs <;> simp <;> omega

theorem sample_cell_fn (F : I3 → Option (I3 → AutomataState)) (cc lv : I3)
    (hx0 : -32 ≤ lv.x) (hx1 : lv.x < 64) (hy0 : -32 ≤ lv.y) (hy1 : lv.y < 64)
    (hz0 : -32 ≤ lv.z) (hz1 : lv.z < 64) :
    sample_cell (fn_snapshots F) cc lv =
      (F ⟨(wrap_axis cc.x lv.x).1, (wrap_axis cc.y lv.y).1,
          (wrap_axis cc.z lv.z).1⟩).map
        (fun g => g ⟨(wrap_axis cc.x lv.x).2, (wrap_axis cc.y lv.y).2,
                     (wrap_axis cc.z lv.z).2⟩) := by
  unfold sample_cell fn_snapshots
  cases hF : F ⟨(wrap_axis cc.x lv.x).1, (wrap_axis cc.y lv.y).1,
      (wrap_axis cc.z lv.z).1⟩ with
  | none => simp [hF]
  | some g =>
    simp only [hF, Option.map_some']
    obtain ⟨hwx0, hwx1⟩ := wrap_axis_snd_bounds cc.x lv.x hx0 hx1
    obtain ⟨hwy0, hwy1⟩ := wrap_axis_snd_bounds cc.y lv.y hy0 hy1
    obtain ⟨hwz0, hwz1⟩ := wrap_axis_snd_bounds cc.z lv.z hz0 hz1
    rw [linear_index_eval _ _ _ hwx0 hwx1 hwy0 hwy1 hwz0 hwz1,
      buffer_of_fn_getElem? g _ _ _ (by omega) (by omega) (by omega)]
    have e1 : Int.ofNat (wrap_axis cc.x lv.x).2.toNat = (wrap_axis cc.x lv.x).2 := by
      exact_mod_cast Int.toNat_of_nonneg hwx0
    have e2 : Int.ofNat (wrap_axis cc.y lv.y).2.toNat = (wrap_axis cc.y lv.y).2 := by
      exact_mod_cast Int.toNat_of_nonneg hwy0
    have e3 : Int.ofNat (wrap_axis cc.z lv.z).2.toNat = (wrap_axis cc.z lv.z).2 := by
      exact_mod_cast Int.toNat_of_nonneg hwz0
    rw [e1, e2, e3]

theorem count_active_neighbors_fn (F : I3 → Option (I3 → AutomataState))
    (cc lv : I3) (hx0 : -31 ≤ lv.x) (hx1 : lv.x < 63) (hy0 : -31 ≤ lv.y)
    (hy1 : lv.y < 63) (hz0 : -31 ≤ lv.z) (hz1 : lv.z < 63) :
    count_active_neighbors (fn_snapshots F) cc lv = count_fn_val F cc lv := by
  unfold count_active_neighbors count_fn_val
  apply List.foldl_ext
  intro cx dx hdx
  apply List.foldl_ext
  intro cy dy hdy
  apply List.foldl_ext
  intro cz dz hdz
  have hdx3 : dx = -1 ∨ dx = 0 ∨ dx = 1 := by simpa [offset_range] using hdx
  have hdy3 : dy = -1 ∨ dy = 0 ∨ dy = 1 := by simpa [offset_range] using hdy
  have hdz3 : dz = -1 ∨ dz = 0 ∨ dz = 1 := by simpa [offset_range] using hdz
  by_cases hc : dx = 0 ∧ dy = 0 ∧ dz = 0
  · rw [if_pos hc, if_pos hc]
  · rw [if_neg hc, if_neg hc,
      sample_cell_fn F cc ⟨lv.x + dx, lv.y + dy, lv.z + dz⟩
        (by show -32 ≤ lv.x + dx; omega) (by show lv.x + dx < 64; omega)
        (by show -32 ≤ lv.y + dy; omega) (by show lv.y + dy < 64; omega)
        (by show -32 ≤ lv.z + dz; omega) (by show lv.z + dz < 64; omega)]

/-! ### C3: static geometry is immutable under the rule -/

/-- C3: for every rule configuration, every state that is static
(solid and not alive), and every neighbor count in [0, 26],
`next_state` returns the input unchanged. -/
theorem static_states_unchanged (r : AutomataRule) (s : AutomataState)
    (n : Nat) (hn : n ≤ 26) (hs : s.is_static = true) :
    r.next_state s n = s := by
  unfold AutomataRule.next_state
  rw [if_pos hs]

/-- Witness for C3: a concrete static voxel (material 2, no flags) is
unchanged by the default rule at neighbor count 4. -/
theorem static_states_unchanged_witness :
    (4 ≤ 26 ∧ AutomataState.is_static ⟨2⟩ = true) ∧
      default_rule.next_state ⟨2⟩ 4 = ⟨2⟩ :=
  ⟨⟨by decide, by decide⟩, static_states_unchanged default_rule ⟨2⟩ 4
    (by decide) (by decide)⟩

/-! ### C9: bulk imports reject mismatched buffer lengths -/

/-- C9: both bulk-import operations fail (assertion rendered as `none`)
exactly when the supplied buffer's length differs from the chunk
buffer's length, and on success they overwrite the whole buffer, never
performing a partial copy. -/
theorem write_length_contract (self new_cells : List AutomataState)
    (packed : List Nat) :
    (write_from_slice self new_cells = none ↔ new_cells.length ≠ self.length) ∧
    (write_from_packed self packed = none ↔ packed.length ≠ self.length) ∧
    (new_cells.length = self.length →
      write_from_slice self new_cells = some new_cells) ∧
    (packed.length = self.length →
      write_from_packed self packed = some (packed.map AutomataState.from_packed)) := by
  unfold write_from_slice write_from_packed
  refine ⟨?_, ?_, ?_, ?_⟩ <;> [skip; skip; intro h; intro h] <;> split <;>
    simp_all

/-- Witness for C9: a 2-element buffer written into a 3-element chunk
is rejected by both import operations. -/
theorem write_length_contract_witness :
    (write_from_slice [⟨0⟩, ⟨0⟩, ⟨0⟩] [⟨1⟩, ⟨1⟩] = none ↔
      ([⟨1⟩, ⟨1⟩] : List AutomataState).length ≠
        ([⟨0⟩, ⟨0⟩, ⟨0⟩] : List AutomataState).length) ∧
    (write_from_packed [⟨0⟩, ⟨0⟩, ⟨0⟩] [1, 1] = none ↔
      ([1, 1] : List Nat).length ≠ ([⟨0⟩, ⟨0⟩, ⟨0⟩] : List AutomataState).length) :=
  ⟨(write_length_contract [⟨0⟩, ⟨0⟩, ⟨0⟩] [⟨1⟩, ⟨1⟩] [1, 1]).1,
   (write_length_contract [⟨0⟩, ⟨0⟩, ⟨0⟩] [⟨1⟩, ⟨1⟩] [1, 1]).2.1⟩

/-! ### C10: neighbor counting is total and in bounds -/

theorem bump_le (o : Option AutomataState) (c : Nat) :
    (match o with
     | some value => if value.is_alive then sat_inc c else c
     | none => c) ≤ c + 1 := by
  cases o with
  | none => show c ≤ c + 1; omega
  | some value =>
    show (if value.is_alive then sat_inc c else c) ≤ c + 1
    by_cases h : value.is_alive = true
    · rw [if_pos h]; unfold sat_inc; omega
    · rw [if_neg h]; omega

theorem foldl_weight_le (L : List Int) (f : Nat → Int → Nat) (w : Int → Nat)
    (h : ∀ c d, d ∈ L → f c d ≤ c + w d) :
    ∀ c, L.foldl f c ≤ c + (L.map w).sum := by
  induction L with
  | nil => simp
  | cons a L ih =>
    intro c
    simp only [List.foldl_cons, List.map_cons, List.sum_cons]
    calc L.foldl f (f c a) ≤ f c a + (L.map w).sum :=
          ih (fun c d hd => h c d (List.mem_cons_of_mem a hd)) (f c a)
    _ ≤ c + w a + (L.map w).sum := by
          have := h c a (List.mem_cons_self a L)
          omega
    _ = c + (w a + (L.map w).sum) := by omega

/-- C10: for every snapshot table whose stored buffers all have length
`CHUNK_VOLUME` and every in-range local coordinate, all 26 neighbor
samples wrap to local coordinates whose linear index is below
`CHUNK_VOLUME` -- so indexing a present buffer always succeeds -- and
the returned live-neighbor count is at most 26. -/
theorem count_neighbors_safe (snap : Snapshots)
    (hlen : ∀ c buf, snap c = some buf → buf.length = CHUNK_VOLUME)
    (cc lv : I3) (hx0 : 0 ≤ lv.x) (hx1 : lv.x < 32) (hy0 : 0 ≤ lv.y)
    (hy1 : lv.y < 32) (hz0 : 0 ≤ lv.z) (hz1 : lv.z < 32) :
    (∀ dx ∈ offset_range, ∀ dy ∈ offset_range, ∀ dz ∈ offset_range,
      linear_index ⟨(wrap_axis cc.x (lv.x + dx)).2,
                    (wrap_axis cc.y (lv.y + dy)).2,
                    (wrap_axis cc.z (lv.z + dz)).2⟩ < CHUNK_VOLUME ∧
      (sample_cell snap cc ⟨lv.x + dx, lv.y + dy, lv.z + dz⟩).isSome =
        (snap ⟨(wrap_axis cc.x (lv.x + dx)).1,
               (wrap_axis cc.y (lv.y + dy)).1,
               (wrap_axis cc.z (lv.z + dz)).1⟩).isSome) ∧
    count_active_neighbors snap cc lv ≤ 26 := by
  constructor
  · intro dx hdx dy hdy dz hdz
    have hdx3 : dx = -1 ∨ dx = 0 ∨ dx = 1 := by simpa [offset_range] using hdx
    have hdy3 : dy = -1 ∨ dy = 0 ∨ dy = 1 := by simpa [offset_range] using hdy
    have hdz3 : dz = -1 ∨ dz = 0 ∨ dz = 1 := by simpa [offset_range] using hdz
    obtain ⟨hwx0, hwx1⟩ := wrap_axis_snd_bounds cc.x (lv.x + dx) (by omega) (by omega)
    obtain ⟨hwy0, hwy1⟩ := wrap_axis_snd_bounds cc.y (lv.y + dy) (by omega) (by omega)
    obtain ⟨hwz0, hwz1⟩ := wrap_axis_snd_bounds cc.z (lv.z + dz) (by omega) (by omega)
    have hidx : linear_index ⟨(wrap_axis cc.x (lv.x + dx)).2,
        (wrap_axis cc.y (lv.y + dy)).2, (wrap_axis cc.z (lv.z + dz)).2⟩ <
        CHUNK_VOLUME := by
      rw [linear_index_eval _ _ _ hwx0 hwx1 hwy0 hwy1 hwz0 hwz1]
      show _ < 32 * 32 * 32
      omega
    refine ⟨hidx, ?_⟩
    show (sample_cell snap cc ⟨lv.x + dx, lv.y + dy, lv.z + dz⟩).isSome = _
    unfold sample_cell
    cases hs : snap ⟨(wrap_axis cc.x (lv.x + dx)).1,
        (wrap_axis cc.y (lv.y + dy)).1, (wrap_axis cc.z (lv.z + dz)).1⟩ with
    | none => simp [hs]
    | some buf =>
      have hb : linear_index ⟨(wrap_axis cc.x (lv.x + dx)).2,
          (wrap_axis cc.y (lv.y + dy)).2, (wrap_axis cc.z (lv.z + dz)).2⟩ <
          buf.length := by rw [hlen _ buf hs]; exact hidx
      simp only [hs, List.getElem?_eq_getElem hb, Option.isSome_some]
  · unfold count_active_neighbors
    have houter : ∀ c dx, dx ∈ offset_range →
        (offset_range.foldl (fun cy dy =>
          offset_range.foldl (fun cz dz =>
            if dx = 0 ∧ dy = 0 ∧ dz = 0 then cz
            else
              match sample_cell snap cc
                  ⟨lv.x + dx, lv.y + dy, lv.z + dz⟩ with
              | some value => if value.is_alive then sat_inc cz else cz
              | none => cz) cy) c) ≤
          c + (if dx = 0 then 8 else 9) := by
      intro c dx _
      have hmid : ∀ c dy, dy ∈ offset_range →
          (offset_range.foldl (fun cz dz =>
            if dx = 0 ∧ dy = 0 ∧ dz = 0 then cz
            else
              match sample_cell snap cc
                  ⟨lv.x + dx, lv.y + dy, lv.z + dz⟩ with
              | some value => if value.is_alive then sat_inc cz else cz
              | none => cz) c) ≤
            c + (if dx = 0 ∧ dy = 0 then 2 else 3) := by
        intro c dy _
        have hin := foldl_weight_le offset_range
          (fun cz dz =>
            if dx = 0 ∧ dy = 0 ∧ dz = 0 then cz
            else
              match sample_cell snap cc
                  ⟨lv.x + dx, lv.y + dy, lv.z + dz⟩ with
              | some value => if value.is_alive then sat_inc cz else cz
              | none => cz)
          (fun dz => if dx = 0 ∧ dy = 0 ∧ dz = 0 then 0 else 1)
          (by
            intro c dz _
            by_cases hc : dx = 0 ∧ dy = 0 ∧ dz = 0
            · simp only [if_pos hc]
              have : dx = 0 ∧ dy = 0 := ⟨hc.1, hc.2.1⟩
              omega
            · simp only [if_neg hc]
              exact le_trans (bump_le _ c) (by omega)) c
        refine le_trans hin ?_
        by_cases hxy : dx = 0 ∧ dy = 0
        · simp [offset_range, hxy]
        · simp [offset_range, hxy]
      have hout := foldl_weight_le offset_range _
        (fun dy => if dx = 0 ∧ dy = 0 then 2 else 3) hmid c
      refine le_trans hout ?_
      by_cases hx : dx = 0
      · simp [offset_range, hx]
      · simp [offset_range, hx]
    have := foldl_weight_le offset_range _
      (fun dx => if dx = 0 then 8 else 9) houter 0
    refine le_trans this ?_
    simp [offset_range]

/-- Witness for C10: the bound holds at the two-chunk scenario table at
local (31,31,31), where the count is 1 and the boundary samples stay in
bounds. -/
theorem count_neighbors_safe_witness :
    count_active_neighbors two_chunk_snapshots ⟨0, 0, 0⟩ ⟨31, 31, 31⟩ ≤ 26 :=
  (count_neighbors_safe two_chunk_snapshots
    (by
      intro c buf h
      unfold two_chunk_snapshots fn_snapshots two_chunk_F at h
      have hlen : ∀ g : I3 → AutomataState,
          (buffer_of_fn g).length = CHUNK_VOLUME := by
        intro g
        unfold buffer_of_fn CHUNK_VOLUME
        rw [length_flatMap_uniform _ _ 1024 (by
          intro a _
          rw [length_flatMap_uniform _ _ 32 (by intro b _; simp)]
          simp)]
        simp
      split_ifs at h <;> simp_all <;> rw [← h] <;> exact hlen _)
    ⟨0, 0, 0⟩ ⟨31, 31, 31⟩ (by norm_num) (by norm_num) (by norm_num)
    (by norm_num) (by norm_num) (by norm_num)).2

/-! ### C2: cross-boundary neighbor sampling -/

/-- C2: with exactly two chunks loaded -- (0,0,0) alive only at local
(31,31,31) and (1,1,1) alive only at local (0,0,0) -- counting the live
neighbors of (31,31,31) in chunk (0,0,0) returns exactly 1, and a
sample that wraps into an absent chunk (here (1,1,0)) yields `none`
rather than an error. -/
theorem cross_boundary_count :
    count_active_neighbors two_chunk_snapshots ⟨0, 0, 0⟩ ⟨31, 31, 31⟩ = 1 ∧
    sample_cell two_chunk_snapshots ⟨0, 0, 0⟩ ⟨32, 32, 31⟩ = none := by
  constructor
  · rw [show two_chunk_snapshots = fn_snapshots two_chunk_F from rfl,
      count_active_neighbors_fn two_chunk_F ⟨0, 0, 0⟩ ⟨31, 31, 31⟩
        (by norm_num) (by norm_num) (by norm_num) (by norm_num)
        (by norm_num) (by norm_num)]
    decide
  · rw [show two_chunk_snapshots = fn_snapshots two_chunk_F from rfl,
      sample_cell_fn two_chunk_F ⟨0, 0, 0⟩ ⟨32, 32, 31⟩
        (by norm_num) (by norm_num) (by norm_num) (by norm_num)
        (by norm_num) (by norm_num)]
    decide

/-! ### C1: the end-to-end 3x3x3 cube scenario -/

theorem next_state_birth_default (s : AutomataState) (hs : s.is_empty = true) :
    default_rule.next_state s 5 = default_rule.alive_template := by
  obtain ⟨e⟩ := s
  have h0 : e = 0 := by simpa [AutomataState.is_empty] using hs
  subst h0
  decide

theorem cube_out_getElem (a b c : Int) (ha0 : 0 ≤ a) (ha1 : a < 32)
    (hb0 : 0 ≤ b) (hb1 : b < 32) (hc0 : 0 ≤ c) (hc1 : c < 32) :
    cube_out[linear_index ⟨a, b, c⟩]? =
      some (default_rule.next_state (cube_g ⟨a, b, c⟩)
        (count_fn_val cube_F ⟨0, 0, 0⟩ ⟨a, b, c⟩)) := by
  have ea : Int.ofNat a.toNat = a := by exact_mod_cast Int.toNat_of_nonneg ha0
  have eb : Int.ofNat b.toNat = b := by exact_mod_cast Int.toNat_of_nonneg hb0
  have ec : Int.ofNat c.toNat = c := by exact_mod_cast Int.toNat_of_nonneg hc0
  have hcur : cube_buffer[linear_index ⟨a, b, c⟩]? = some (cube_g ⟨a, b, c⟩) := by
    unfold cube_buffer
    rw [linear_index_eval a b c ha0 ha1 hb0 hb1 hc0 hc1,
      buffer_of_fn_getElem? cube_g a.toNat b.toNat c.toNat (by omega) (by omega)
        (by omega), ea, eb, ec]
  have hcnt : count_active_neighbors cube_snapshots ⟨0, 0, 0⟩ ⟨a, b, c⟩ =
      count_fn_val cube_F ⟨0, 0, 0⟩ ⟨a, b, c⟩ := by
    rw [show cube_snapshots = fn_snapshots cube_F from rfl]
    exact count_active_neighbors_fn cube_F _ _ (by show -31 ≤ a; omega)
      (by show a < 63; omega) (by show -31 ≤ b; omega) (by show b < 63; omega)
      (by show -31 ≤ c; omega) (by show c < 63; omega)
  show (step_chunk cube_buffer ⟨0, 0, 0⟩ cube_snapshots default_rule)[
      linear_index ⟨a, b, c⟩]? = _
  unfold step_chunk
  rw [linear_index_eval a b c ha0 ha1 hb0 hb1 hc0 hc1,
    buffer_of_fn_getElem? _ a.toNat b.toNat c.toNat (by omega) (by omega)
      (by omega)]
  simp only [ea, eb, ec]
  simp only [hcur, Option.getD_some, hcnt]

/-- C1: in the single-chunk scenario -- all voxels empty except a 3x3x3
cube of alive voxels centered at (16,16,16), under the default rule
birth={5}, survive={4,5} -- one step makes the center voxel (26 live
neighbors) fall to the inactive state, makes every cube corner (exactly
7 live neighbors) fall to the inactive state, and turns any in-range
empty voxel with exactly 5 live neighbors into the configured
birth-material/birth-flags alive state (stated for an arbitrary chunk
buffer and snapshot table under the same rule; in this particular cube
configuration no empty voxel attains exactly 5 live neighbors, so the
birth clause has no instance here). -/
theorem cube_scenario_step :
    (count_active_neighbors cube_snapshots ⟨0, 0, 0⟩ ⟨16, 16, 16⟩ = 26 ∧
      cube_out[linear_index ⟨16, 16, 16⟩]? = some default_rule.inactive_state) ∧
    (∀ v ∈ cube_corners,
      count_active_neighbors cube_snapshots ⟨0, 0, 0⟩ v = 7 ∧
      cube_out[linear_index v]? = some default_rule.inactive_state) ∧
    (∀ (current : List AutomataState) (snap : Snapshots) (cc : I3)
      (a b c : Int), 0 ≤ a → a < 32 → 0 ≤ b → b < 32 → 0 ≤ c → c < 32 →
      ((current[linear_index ⟨a, b, c⟩]?).getD ⟨0⟩).is_empty = true →
      count_active_neighbors snap cc ⟨a, b, c⟩ = 5 →
      (step_chunk current cc snap default_rule)[linear_index ⟨a, b, c⟩]? =
        some default_rule.alive_template) := by
  refine ⟨⟨?_, ?_⟩, ?_, ?_⟩
  · rw [show cube_snapshots = fn_snapshots cube_F from rfl,
      count_active_neighbors_fn cube_F ⟨0, 0, 0⟩ ⟨16, 16, 16⟩ (by norm_num)
        (by norm_num) (by norm_num) (by norm_num) (by norm_num) (by norm_num)]
    decide
  · rw [cube_out_getElem 16 16 16 (by norm_num) (by norm_num) (by norm_num)
      (by norm_num) (by norm_num) (by norm_num)]
    decide
  · intro v hv
    simp only [cube_corners] at hv
    fin_cases hv <;>
      exact ⟨by
        rw [show cube_snapshots = fn_snapshots cube_F from rfl,
          count_active_neighbors_fn cube_F _ _ (by norm_num) (by norm_num)
            (by norm_num) (by norm_num) (by norm_num) (by norm_num)]
        decide,
      by
        rw [cube_out_getElem _ _ _ (by norm_num) (by norm_num) (by norm_num)
          (by norm_num) (by norm_num) (by norm_num)]
        decide⟩
  · intro current snap cc a b c ha0 ha1 hb0 hb1 hc0 hc1 hemp hcnt
    have ea : Int.ofNat a.toNat = a := by exact_mod_cast Int.toNat_of_nonneg ha0
    have eb : Int.ofNat b.toNat = b := by exact_mod_cast Int.toNat_of_nonneg hb0
    have ec : Int.ofNat c.toNat = c := by exact_mod_cast Int.toNat_of_nonneg hc0
    unfold step_chunk
    rw [linear_index_eval a b c ha0 ha1 hb0 hb1 hc0 hc1,
      buffer_of_fn_getElem? _ a.toNat b.toNat c.toNat (by omega) (by omega)
        (by omega)]
    simp only [ea, eb, ec]
    rw [hcnt, next_state_birth_default _ hemp]

/-- Witness for C1: corner (15,15,15) is a cube corner with 7 live
neighbors that dies, and in a five-live-neighbor configuration the
empty voxel at (10,10,10) is born with the configured material and
flags. -/
theorem cube_scenario_step_witness :
    ((⟨15, 15, 15⟩ : I3) ∈ cube_corners ∧
      count_active_neighbors cube_snapshots ⟨0, 0, 0⟩ ⟨15, 15, 15⟩ = 7 ∧
      cube_out[linear_index ⟨15, 15, 15⟩]? = some default_rule.inactive_state) ∧
    (step_chunk five_buffer ⟨0, 0, 0⟩ five_snapshots default_rule)[
        linear_index ⟨10, 10, 10⟩]? = some default_rule.alive_template := by
  have hmem : (⟨15, 15, 15⟩ : I3) ∈ cube_corners := by decide
  have hcorner := cube_scenario_step.2.1 ⟨15, 15, 15⟩ hmem
  have hemp :
      ((five_buffer[linear_index ⟨10, 10, 10⟩]?).getD ⟨0⟩).is_empty = true := by
    unfold five_buffer
    rw [show linear_index ⟨10, 10, 10⟩ = 10 * 1024 + 10 * 32 + 10 from by decide,
      buffer_of_fn_getElem? five_g 10 10 10 (by norm_num) (by norm_num)
        (by norm_num)]
    decide
  have hcnt : count_active_neighbors five_snapshots ⟨0, 0, 0⟩ ⟨10, 10, 10⟩ = 5 := by
    rw [show five_snapshots = fn_snapshots five_F from rfl,
      count_active_neighbors_fn five_F ⟨0, 0, 0⟩ ⟨10, 10, 10⟩ (by norm_num)
        (by norm_num) (by norm_num) (by norm_num) (by norm_num) (by norm_num)]
    decide
  exact ⟨⟨hmem, hcorner⟩, cube_scenario_step.2.2 five_buffer five_snapshots
    ⟨0, 0, 0⟩ 10 10 10 (by norm_num) (by norm_num) (by norm_num) (by norm_num)
    (by norm_num) (by norm_num) hemp hcnt⟩

/-! ### C4: a tick with no requested step changes nothing -/

theorem snapshot_chunks_clock (w : World) :
    (snapshot_chunks w).clock = w.clock := by
  unfold snapshot_chunks
  split <;> rfl

theorem apply_next_cells_executed (w : World) :
    (apply_next_cells w).clock.executed_step = false := by
  unfold apply_next_cells
  split
  · next h => simpa using h
  · rfl

theorem tick_simulation_executed (delta : ℚ) (clock : SimulationClock)
    (speed : SimulationSpeed) :
    (tick_simulation delta clock speed).executed_step = false := by
  unfold tick_simulation
  split <;> rfl

/-- C4: when the clock requests no step this tick, the whole tick
(snapshot, step and commit phases) leaves every chunk's current buffer,
the snapshot table, the speed state and the budget state unchanged. -/
theorem no_step_no_change (w : World) (delta elapsed_ms : ℚ)
    (h : (tick_simulation delta w.clock w.speed).steps_requested = 0) :
    (run_tick delta elapsed_ms w).chunks.map Chunk.cells =
        w.chunks.map Chunk.cells ∧
    (run_tick delta elapsed_ms w).snapshots = w.snapshots ∧
    (run_tick delta elapsed_ms w).speed = w.speed ∧
    (run_tick delta elapsed_ms w).budget = w.budget := by
  unfold run_tick
  have hsnap : snapshot_chunks
      { w with clock := tick_simulation delta w.clock w.speed } =
      { w with clock := tick_simulation delta w.clock w.speed } := by
    unfold snapshot_chunks
    rw [if_pos h]
  have hstep : step_chunks elapsed_ms
      { w with clock := tick_simulation delta w.clock w.speed } =
      { w with clock := tick_simulation delta w.clock w.speed } := by
    unfold step_chunks
    rw [if_pos h]
  have happly : apply_next_cells
      { w with clock := tick_simulation delta w.clock w.speed } =
      { w with clock := tick_simulation delta w.clock w.speed } := by
    unfold apply_next_cells
    rw [if_pos (by
      show (! (tick_simulation delta w.clock w.speed).executed_step) = true
      rw [tick_simulation_executed]
      rfl)]
  rw [hsnap, hstep, happly]
  exact ⟨rfl, rfl, rfl, rfl⟩

/-- Witness for C4: a concrete world with zero accumulated time and
zero delta requests no step, and the tick changes nothing. -/
theorem no_step_no_change_witness :
    (tick_simulation 0 (⟨0, 0, false⟩ : SimulationClock)
      (⟨1, 1/10, 4⟩ : SimulationSpeed)).steps_requested = 0 ∧
    (run_tick 0 0 ⟨⟨0, 0, false⟩, ⟨1, 1/10, 4⟩, ⟨6, 1/5, 0⟩, default_rule, [],
        fun _ => none⟩).snapshots =
      (⟨⟨0, 0, false⟩, ⟨1, 1/10, 4⟩, ⟨6, 1/5, 0⟩, default_rule, [],
        fun _ => none⟩ : World).snapshots ∧
    (run_tick 0 0 ⟨⟨0, 0, false⟩, ⟨1, 1/10, 4⟩, ⟨6, 1/5, 0⟩, default_rule, [],
        fun _ => none⟩).speed =
      (⟨⟨0, 0, false⟩, ⟨1, 1/10, 4⟩, ⟨6, 1/5, 0⟩, default_rule, [],
        fun _ => none⟩ : World).speed := by
  have h : (tick_simulation 0 (⟨0, 0, false⟩ : SimulationClock)
      (⟨1, 1/10, 4⟩ : SimulationSpeed)).steps_requested = 0 := by
    norm_num [tick_simulation, FIXED_STEP_SECONDS]
  have hh := no_step_no_change
    ⟨⟨0, 0, false⟩, ⟨1, 1/10, 4⟩, ⟨6, 1/5, 0⟩, default_rule, [], fun _ => none⟩
    0 0 h
  exact ⟨h, hh.2.1, hh.2.2.1⟩

/-! ### C5: the post-step accumulator bound -/

/-- C5 counterexample: from accumulator 0 (certainly in
[0, FIXED_STEP)) with speed factor 1 and the non-negative external
delta 1, the tick requests a step but leaves the accumulator at 59/60,
far outside [0, FIXED_STEP): one fixed step is subtracted, the excess is
retained. -/
theorem clock_accumulator_cex :
    (0 : ℚ) ≤ 1 ∧ 0 ≤ (0 : ℚ) ∧ (0 : ℚ) < FIXED_STEP_SECONDS ∧
    (tick_simulation 1 ⟨0, 0, false⟩ ⟨1, 1/10, 4⟩).steps_requested = 1 ∧
    ¬ (tick_simulation 1 ⟨0, 0, false⟩ ⟨1, 1/10, 4⟩).accumulator <
        FIXED_STEP_SECONDS := by
  refine ⟨by norm_num, le_refl 0, by norm_num [FIXED_STEP_SECONDS], ?_, ?_⟩ <;>
    norm_num [tick_simulation, FIXED_STEP_SECONDS]

/-- C5 amended: after a tick that requested a step from an accumulator
in [0, FIXED_STEP) with non-negative delta, the accumulator is
non-negative, and it stays below FIXED_STEP provided the scaled delta
(delta x speed factor) is at most FIXED_STEP; without that bound the
excess above one fixed step is retained in the accumulator. -/
theorem clock_accumulator_amended (clock : SimulationClock)
    (speed : SimulationSpeed) (delta : ℚ) (hd : 0 ≤ delta)
    (h0 : 0 ≤ clock.accumulator) (h1 : clock.accumulator < FIXED_STEP_SECONDS)
    (hstep : (tick_simulation delta clock speed).steps_requested = 1) :
    0 ≤ (tick_simulation delta clock speed).accumulator ∧
    (delta * speed.factor ≤ FIXED_STEP_SECONDS →
      (tick_simulation delta clock speed).accumulator < FIXED_STEP_SECONDS) := by
  unfold tick_simulation at hstep ⊢
  by_cases hge : clock.accumulator + delta * speed.factor ≥ FIXED_STEP_SECONDS
  · rw [if_pos hge]
    refine ⟨?_, fun hb => ?_⟩
    · show 0 ≤ clock.accumulator + delta * speed.factor - FIXED_STEP_SECONDS
      linarith
    · show clock.accumulator + delta * speed.factor - FIXED_STEP_SECONDS <
        FIXED_STEP_SECONDS
      linarith
  · rw [if_neg hge] at hstep
    exact absurd hstep (by norm_num)

/-- Witness for C5's amended statement: accumulator 1/120, factor 1,
delta 1/120 requests a step and lands exactly on accumulator 0. -/
theorem clock_accumulator_amended_witness :
    0 ≤ (tick_simulation (1/120) ⟨1/120, 0, false⟩ ⟨1, 1/10, 4⟩).accumulator ∧
    ((1 : ℚ)/120 * (1 : ℚ) ≤ FIXED_STEP_SECONDS →
      (tick_simulation (1/120) ⟨1/120, 0, false⟩
        ⟨1, 1/10, 4⟩).accumulator < FIXED_STEP_SECONDS) :=
  clock_accumulator_amended ⟨1/120, 0, false⟩ ⟨1, 1/10, 4⟩ (1/120)
    (by norm_num) (by norm_num) (by norm_num [FIXED_STEP_SECONDS])
    (by norm_num [tick_simulation, FIXED_STEP_SECONDS])

/-! ### C6: lifetime of the executed_step flag -/

theorem step_chunks_executed (elapsed_ms : ℚ) (w : World)
    (h : w.clock.steps_requested ≠ 0) :
    (step_chunks elapsed_ms w).clock.executed_step = true := by
  unfold step_chunks
  rw [if_neg h]

/-- C6 counterexample: in a tick where a step executes (accumulator
exactly one fixed step, no chunks loaded), `executed_step` is true at
the end of the evaluation phase but false at the end of that same
tick's commit phase -- the commit phase itself clears it, so it does not
remain true until the next tick's clock phase. -/
theorem executed_flag_cex :
    (step_chunks 0 (snapshot_chunks
      { clock := tick_simulation 0 ⟨1/60, 0, false⟩ ⟨1, 1/10, 4⟩,
        speed := ⟨1, 1/10, 4⟩, budget := ⟨6, 1/5, 0⟩, rule := default_rule,
        chunks := [], snapshots := fun _ => none })).clock.executed_step
      = true ∧
    (run_tick 0 0 ⟨⟨1/60, 0, false⟩, ⟨1, 1/10, 4⟩, ⟨6, 1/5, 0⟩, default_rule,
      [], fun _ => none⟩).clock.executed_step = false := by
  constructor
  · apply step_chunks_executed
    rw [snapshot_chunks_clock]
    show (tick_simulation 0 ⟨1/60, 0, false⟩ ⟨1, 1/10, 4⟩).steps_requested ≠ 0
    norm_num [tick_simulation, FIXED_STEP_SECONDS]
  · exact apply_next_cells_executed _

/-- C6 amended: `executed_step` is set by the evaluation phase when the
step for a tick completes, and is cleared within the same tick by the
commit phase after it copies the buffers (the clock also resets it at
the start of every tick); so it is observably true from the end of the
evaluation phase until the commit phase runs, not until the next tick. -/
theorem executed_flag_amended (w : World) (delta elapsed_ms : ℚ)
    (h : (tick_simulation delta w.clock w.speed).steps_requested = 1) :
    (step_chunks elapsed_ms (snapshot_chunks
      { w with
        clock := tick_simulation delta w.clock w.speed })).clock.executed_step
      = true ∧
    (run_tick delta elapsed_ms w).clock.executed_step = false := by
  refine ⟨?_, apply_next_cells_executed _⟩
  apply step_chunks_executed
  rw [snapshot_chunks_clock]
  show (tick_simulation delta w.clock w.speed).steps_requested ≠ 0
  omega

/-- Witness for C6's amended statement: the concrete one-fixed-step
world used above. -/
theorem executed_flag_amended_witness :
    (step_chunks 2 (snapshot_chunks
      { clock := tick_simulation 0 ⟨1/30, 0, false⟩ ⟨1, 1/10, 4⟩,
        speed := ⟨1, 1/10, 4⟩, budget := ⟨6, 1/5, 0⟩, rule := default_rule,
        chunks := [], snapshots := fun _ => none })).clock.executed_step
      = true ∧
    (run_tick 0 2 ⟨⟨1/30, 0, false⟩, ⟨1, 1/10, 4⟩, ⟨6, 1/5, 0⟩, default_rule,
      [], fun _ => none⟩).clock.executed_step = false :=
  executed_flag_amended
    ⟨⟨1/30, 0, false⟩, ⟨1, 1/10, 4⟩, ⟨6, 1/5, 0⟩, default_rule, [],
      fun _ => none⟩ 0 2 (by norm_num [tick_simulation, FIXED_STEP_SECONDS])

/-! ### C7: speed-controller monotonicity -/

theorem record_step_target (b : SimulationBudget) (c : ℚ) :
    (b.record_step c).target_ms = b.target_ms := by
  unfold SimulationBudget.record_step
  split <;> rfl

theorem record_step_smoothing (b : SimulationBudget) (c : ℚ) :
    (b.record_step c).smoothing = b.smoothing := by
  unfold SimulationBudget.record_step
  split <;> rfl

theorem feedback_min_factor (s : SimulationSpeed) (b : SimulationBudget) :
    (s.apply_budget_feedback b).min_factor = s.min_factor := by
  unfold SimulationSpeed.apply_budget_feedback
  split_ifs <;> rfl

theorem feedback_max_factor (s : SimulationSpeed) (b : SimulationBudget) :
    (s.apply_budget_feedback b).max_factor = s.max_factor := by
  unfold SimulationSpeed.apply_budget_feedback
  split_ifs <;> rfl

theorem record_step_rolling_gt (b : SimulationBudget) (c : ℚ)
    (hroll : b.rolling_ms = 0 ∨ b.target_ms < b.rolling_ms)
    (hs0 : 0 ≤ b.smoothing) (hs1 : b.smoothing ≤ 1) (hc : b.target_ms < c) :
    b.target_ms < (b.record_step c).rolling_ms := by
  unfold SimulationBudget.record_step
  split
  · exact hc
  · next h =>
    have hr : b.target_ms < b.rolling_ms := hroll.resolve_left h
    show b.target_ms < b.rolling_ms + b.smoothing * (c - b.rolling_ms)
    rcases lt_or_eq_of_le hs1 with hlt | heq
    · have h1 : 0 < (1 - b.smoothing) * (b.rolling_ms - b.target_ms) :=
        mul_pos (by linarith) (by linarith)
      have h2 : 0 ≤ b.smoothing * (c - b.target_ms) :=
        mul_nonneg hs0 (by linarith)
      have key : b.rolling_ms + b.smoothing * (c - b.rolling_ms) - b.target_ms =
          (1 - b.smoothing) * (b.rolling_ms - b.target_ms) +
            b.smoothing * (c - b.target_ms) := by ring
      linarith
    · rw [heq]
      linarith

theorem record_step_rolling_lt_half (b : SimulationBudget) (c : ℚ)
    (hroll : b.rolling_ms = 0 ∨ b.rolling_ms < b.target_ms * (1 / 2))
    (hs0 : 0 ≤ b.smoothing) (hs1 : b.smoothing ≤ 1)
    (hc : c < b.target_ms * (1 / 2)) :
    (b.record_step c).rolling_ms < b.target_ms * (1 / 2) := by
  unfold SimulationBudget.record_step
  split
  · exact hc
  · next h =>
    have hr : b.rolling_ms < b.target_ms * (1 / 2) := hroll.resolve_left h
    show b.rolling_ms + b.smoothing * (c - b.rolling_ms) < b.target_ms * (1 / 2)
    rcases lt_or_eq_of_le hs1 with hlt | heq
    · have h1 : 0 < (1 - b.smoothing) * (b.target_ms * (1 / 2) - b.rolling_ms) :=
        mul_pos (by linarith) (by linarith)
      have h2 : 0 ≤ b.smoothing * (b.target_ms * (1 / 2) - c) :=
        mul_nonneg hs0 (by linarith)
      have key : b.target_ms * (1 / 2) -
          (b.rolling_ms + b.smoothing * (c - b.rolling_ms)) =
          (1 - b.smoothing) * (b.target_ms * (1 / 2) - b.rolling_ms) +
            b.smoothing * (b.target_ms * (1 / 2) - c) := by ring
      linarith
    · rw [heq]
      linarith

theorem feedback_shrink_le (s : SimulationSpeed) (b : SimulationBudget)
    (hmin : 0 ≤ s.min_factor) (hf : s.min_factor ≤ s.factor)
    (hgt : b.target_ms < b.rolling_ms) :
    (s.apply_budget_feedback b).factor ≤ s.factor ∧
    s.min_factor ≤ (s.apply_budget_feedback b).factor := by
  unfold SimulationSpeed.apply_budget_feedback
  rw [if_pos (show b.rolling_ms > b.target_ms from hgt)]
  constructor
  · show max (s.factor * (9 / 10)) s.min_factor ≤ s.factor
    exact max_le (by linarith) hf
  · exact le_max_right _ _

theorem feedback_grow_ge (s : SimulationSpeed) (b : SimulationBudget)
    (hmin : 0 ≤ s.min_factor) (hf : s.min_factor ≤ s.factor)
    (hfx : s.factor ≤ s.max_factor) (ht : 0 < b.target_ms)
    (hlt : b.rolling_ms < b.target_ms * (1 / 2)) :
    s.factor ≤ (s.apply_budget_feedback b).factor ∧
    (s.apply_budget_feedback b).factor ≤ s.max_factor ∧
    s.min_factor ≤ (s.apply_budget_feedback b).factor := by
  unfold SimulationSpeed.apply_budget_feedback
  rw [if_neg (show ¬ b.rolling_ms > b.target_ms by
    simp only [gt_iff_lt, not_lt]; linarith), if_pos hlt]
  refine ⟨?_, ?_, ?_⟩
  · show s.factor ≤ min (s.factor * (21 / 20)) s.max_factor
    exact le_min (by linarith) hfx
  · exact min_le_right _ _
  · show s.min_factor ≤ min (s.factor * (21 / 20)) s.max_factor
    exact le_min (by linarith) (by linarith)

theorem scanl_head? {α β : Type} (f : α → β → α) (a : α) (l : List β) :
    (List.scanl f a l).head? = some a := by
  cases l <;> simp [List.scanl]

theorem shrink_traj (costs : List ℚ) :
    ∀ (s : SimulationSpeed) (b : SimulationBudget), 0 ≤ s.min_factor →
    s.min_factor ≤ s.factor →
    (b.rolling_ms = 0 ∨ b.target_ms < b.rolling_ms) → 0 ≤ b.smoothing →
    b.smoothing ≤ 1 → (∀ c ∈ costs, b.target_ms < c) →
    List.Chain' (fun p q => q.1.factor ≤ p.1.factor)
      (costs.scanl feedback_step (s, b)) ∧
    ∀ p ∈ costs.scanl feedback_step (s, b), s.min_factor ≤ p.1.factor := by
  induction costs with
  | nil =>
    intro s b _ hf _ _ _ _
    refine ⟨by simp, ?_⟩
    intro p hp
    simp only [List.scanl_nil, List.mem_singleton] at hp
    rw [hp]
    exact hf
  | cons c cs ih =>
    intro s b hmin hf hroll hs0 hs1 hcosts
    have hglt : (b.record_step c).target_ms < (b.record_step c).rolling_ms := by
      rw [record_step_target]
      exact record_step_rolling_gt b c hroll hs0 hs1 (hcosts c (by simp))
    have hfs := feedback_shrink_le s (b.record_step c) hmin hf hglt
    have hmin' :
        (s.apply_budget_feedback (b.record_step c)).min_factor = s.min_factor :=
      feedback_min_factor _ _
    have ihh := ih (s.apply_budget_feedback (b.record_step c)) (b.record_step c)
      (by rw [hmin']; exact hmin) (by rw [hmin']; exact hfs.2) (Or.inr hglt)
      (by rw [record_step_smoothing]; exact hs0)
      (by rw [record_step_smoothing]; exact hs1)
      (fun d hd => by
        rw [record_step_target]
        exact hcosts d (List.mem_cons_of_mem c hd))
    constructor
    · rw [List.scanl_cons, List.singleton_append, List.chain'_cons']
      refine ⟨?_, ihh.1⟩
      intro q hq
      rw [show feedback_step (s, b) c =
          (s.apply_budget_feedback (b.record_step c), b.record_step c) from rfl,
        scanl_head?] at hq
      simp only [Option.mem_def, Option.some_inj] at hq
      rw [← hq]
      exact hfs.1
    · intro p hp
      rw [List.scanl_cons, List.singleton_append] at hp
      rcases List.mem_cons.mp hp with h | h
      · rw [h]
        exact hf
      · have hb := ihh.2 p h
        rw [hmin'] at hb
        exact hb

theorem grow_traj (costs : List ℚ) :
    ∀ (s : SimulationSpeed) (b : SimulationBudget), 0 ≤ s.min_factor →
    s.min_factor ≤ s.factor → s.factor ≤ s.max_factor → 0 < b.target_ms →
    (b.rolling_ms = 0 ∨ b.rolling_ms < b.target_ms * (1 / 2)) →
    0 ≤ b.smoothing → b.smoothing ≤ 1 →
    (∀ c ∈ costs, c < b.target_ms * (1 / 2)) →
    List.Chain' (fun p q => p.1.factor ≤ q.1.factor)
      (costs.scanl feedback_step (s, b)) ∧
    ∀ p ∈ costs.scanl feedback_step (s, b), p.1.factor ≤ s.max_factor := by
  induction costs with
  | nil =>
    intro s b _ _ hfx _ _ _ _ _
    refine ⟨by simp, ?_⟩
    intro p hp
    simp only [List.scanl_nil, List.mem_singleton] at hp
    rw [hp]
    exact hfx
  | cons c cs ih =>
    intro s b hmin hf hfx ht hroll hs0 hs1 hcosts
    have hglt : (b.record_step c).rolling_ms <
        (b.record_step c).target_ms * (1 / 2) := by
      rw [record_step_target]
      exact record_step_rolling_lt_half b c hroll hs0 hs1 (hcosts c (by simp))
    have hfg := feedback_grow_ge s (b.record_step c) hmin hf hfx
      (by rw [record_step_target]; exact ht) hglt
    have hmin' :
        (s.apply_budget_feedback (b.record_step c)).min_factor = s.min_factor :=
      feedback_min_factor _ _
    have hmax' :
        (s.apply_budget_feedback (b.record_step c)).max_factor = s.max_factor :=
      feedback_max_factor _ _
    have ihh := ih (s.apply_budget_feedback (b.record_step c)) (b.record_step c)
      (by rw [hmin']; exact hmin) (by rw [hmin']; exact hfg.2.2)
      (by rw [hmax']; exact hfg.2.1)
      (by rw [record_step_target]; exact ht) (Or.inr hglt)
      (by rw [record_step_smoothing]; exact hs0)
      (by rw [record_step_smoothing]; exact hs1)
      (fun d hd => by
        rw [record_step_target]
        exact hcosts d (List.mem_cons_of_mem c hd))
    constructor
    · rw [List.scanl_cons, List.singleton_append, List.chain'_cons']
      refine ⟨?_, ihh.1⟩
      intro q hq
      rw [show feedback_step (s, b) c =
          (s.apply_budget_feedback (b.record_step c), b.record_step c) from rfl,
        scanl_head?] at hq
      simp only [Option.mem_def, Option.some_inj] at hq
      rw [← hq]
      exact hfg.1
    · intro p hp
      rw [List.scanl_cons, List.singleton_append] at hp
      rcases List.mem_cons.mp hp with h | h
      · rw [h]
        exact hfx
      · have hb := ihh.2 p h
        rw [hmax'] at hb
        exact hb

/-- C7: starting from a speed factor in [min_factor, max_factor] (with
a non-negative minimum) and a fresh budget (rolling cost 0, smoothing in
[0,1]): (1) if every recorded step cost is strictly above target_ms the
factor after each feedback application is non-increasing and never
drops below min_factor; (2) if the (positive) target satisfies that
every cost is strictly below target_ms/2, the factor is non-decreasing
and never exceeds max_factor; (3) a single feedback application with
the rolling cost inside [target_ms/2, target_ms] leaves the speed state
unchanged. -/
theorem speed_factor_feedback :
    (∀ (s : SimulationSpeed) (b : SimulationBudget) (costs : List ℚ),
      0 ≤ s.min_factor → s.min_factor ≤ s.factor → s.factor ≤ s.max_factor →
      b.rolling_ms = 0 → 0 ≤ b.smoothing → b.smoothing ≤ 1 →
      (∀ c ∈ costs, b.target_ms < c) →
      List.Chain' (fun p q => q.1.factor ≤ p.1.factor)
        (costs.scanl feedback_step (s, b)) ∧
      ∀ p ∈ costs.scanl feedback_step (s, b), s.min_factor ≤ p.1.factor) ∧
    (∀ (s : SimulationSpeed) (b : SimulationBudget) (costs : List ℚ),
      0 ≤ s.min_factor → s.min_factor ≤ s.factor → s.factor ≤ s.max_factor →
      b.rolling_ms = 0 → 0 < b.target_ms → 0 ≤ b.smoothing → b.smoothing ≤ 1 →
      (∀ c ∈ costs, c < b.target_ms * (1 / 2)) →
      List.Chain' (fun p q => p.1.factor ≤ q.1.factor)
        (costs.scanl feedback_step (s, b)) ∧
      ∀ p ∈ costs.scanl feedback_step (s, b), p.1.factor ≤ s.max_factor) ∧
    (∀ (s : SimulationSpeed) (b : SimulationBudget),
      b.target_ms * (1 / 2) ≤ b.rolling_ms → b.rolling_ms ≤ b.target_ms →
      s.apply_budget_feedback b = s) := by
  refine ⟨?_, ?_, ?_⟩
  · intro s b costs hmin hf hfx hroll hs0 hs1 hcosts
    exact shrink_traj costs s b hmin hf (Or.inl hroll) hs0 hs1 hcosts
  · intro s b costs hmin hf hfx hroll ht hs0 hs1 hcosts
    exact grow_traj costs s b hmin hf hfx ht (Or.inl hroll) hs0 hs1 hcosts
  · intro s b hlo hup
    unfold SimulationSpeed.apply_budget_feedback
    rw [if_neg (by simp only [gt_iff_lt, not_lt]; exact hup),
      if_neg (by simp only [not_lt]; exact hlo)]

/-- Witness for C7: from factor 1 in [1/10, 4] and a fresh budget with
target 6, two costs above target give a non-increasing bounded
trajectory, two costs below 3 give a non-decreasing bounded trajectory,
and a rolling cost of 4 inside [3, 6] leaves the speed unchanged. -/
theorem speed_factor_feedback_witness :
    (List.Chain' (fun p q => q.1.factor ≤ p.1.factor)
      (([7, 8] : List ℚ).scanl feedback_step
        (⟨1, 1/10, 4⟩, ⟨6, 1/5, 0⟩)) ∧
      ∀ p ∈ ([7, 8] : List ℚ).scanl feedback_step
        (⟨1, 1/10, 4⟩, ⟨6, 1/5, 0⟩), (1 : ℚ)/10 ≤ p.1.factor) ∧
    (List.Chain' (fun p q => p.1.factor ≤ q.1.factor)
      (([1, 2] : List ℚ).scanl feedback_step
        (⟨1, 1/10, 4⟩, ⟨6, 1/5, 0⟩)) ∧
      ∀ p ∈ ([1, 2] : List ℚ).scanl feedback_step
        (⟨1, 1/10, 4⟩, ⟨6, 1/5, 0⟩), p.1.factor ≤ (4 : ℚ)) ∧
    SimulationSpeed.apply_budget_feedback ⟨1, 1/10, 4⟩ ⟨6, 1/5, 4⟩ =
      ⟨1, 1/10, 4⟩ := by
  refine ⟨?_, ?_, ?_⟩
  · exact speed_factor_feedback.1 ⟨1, 1/10, 4⟩ ⟨6, 1/5, 0⟩ [7, 8]
      (by norm_num) (by norm_num) (by norm_num) rfl (by norm_num) (by norm_num)
      (by intro c hc; fin_cases hc <;> norm_num)
  · exact speed_factor_feedback.2.1 ⟨1, 1/10, 4⟩ ⟨6, 1/5, 0⟩ [1, 2]
      (by norm_num) (by norm_num) (by norm_num) rfl (by norm_num) (by norm_num)
      (by norm_num) (by intro c hc; fin_cases hc <;> norm_num)
  · exact speed_factor_feedback.2.2 ⟨1, 1/10, 4⟩ ⟨6, 1/5, 4⟩ (by norm_num)
      (by norm_num)

/-! ### C8: injectivity of the Morton spatial key -/

theorem mask1_testBit (j : Nat) :
    (0x1fffff : Nat).testBit j = decide (j < 21) := by
  rcases Nat.lt_or_ge j 64 with h | h
  · interval_cases j <;> decide
  · rw [Nat.testBit_lt_two_pow (by
      calc (0x1fffff : Nat) < 2 ^ 21 := by norm_num
      _ ≤ 2 ^ j := Nat.pow_le_pow_right (by norm_num) (by omega))]
    symm
    rw [decide_eq_false_iff_not]
    omega

theorem mask2_testBit (j : Nat) :
    (0x1f00000000ffff : Nat).testBit j =
      decide (j < 16 ∨ (48 ≤ j ∧ j < 53)) := by
  rcases Nat.lt_or_ge j 64 with h | h
  · interval_cases j <;> decide
  · rw [Nat.testBit_lt_two_pow (by
      calc (0x1f00000000ffff : Nat) < 2 ^ 53 := by norm_num
      _ ≤ 2 ^ j := Nat.pow_le_pow_right (by norm_num) (by omega))]
    symm
    rw [decide_eq_false_iff_not]
    omega

theorem mask3_testBit (j : Nat) :
    (0x1f0000ff0000ff : Nat).testBit j =
      decide (j < 8 ∨ (24 ≤ j ∧ j < 32) ∨ (48 ≤ j ∧ j < 53)) := by
  rcases Nat.lt_or_ge j 64 with h | h
  · interval_cases j <;> decide
  · rw [Nat.testBit_lt_two_pow (by
      calc (0x1f0000ff0000ff : Nat) < 2 ^ 53 := by norm_num
      _ ≤ 2 ^ j := Nat.pow_le_pow_right (by norm_num) (by omega))]
    symm
    rw [decide_eq_false_iff_not]
    omega

theorem mask4_testBit (j : Nat) :
    (0x100f00f00f00f00f : Nat).testBit j = decide (j % 12 < 4 ∧ j ≤ 60) := by
  rcases Nat.lt_or_ge j 64 with h | h
  · interval_cases j <;> decide
  · rw [Nat.testBit_lt_two_pow (by
      calc (0x100f00f00f00f00f : Nat) < 2 ^ 61 := by norm_num
      _ ≤ 2 ^ j := Nat.pow_le_pow_right (by norm_num) (by omega))]
    symm
    rw [decide_eq_false_iff_not]
    omega

theorem mask5_testBit (j : Nat) :
    (0x10c30c30c30c30c3 : Nat).testBit j = decide (j % 6 < 2 ∧ j ≤ 60) := by
  rcases Nat.lt_or_ge j 64 with h | h
  · interval_cases j <;> decide
  · rw [Nat.testBit_lt_two_pow (by
      calc (0x10c30c30c30c30c3 : Nat) < 2 ^ 61 := by norm_num
      _ ≤ 2 ^ j := Nat.pow_le_pow_right (by norm_num) (by omega))]
    symm
    rw [decide_eq_false_iff_not]
    omega

theorem mask6_testBit (j : Nat) :
    (0x1249249249249249 : Nat).testBit j = decide (j % 3 = 0 ∧ j ≤ 60) := by
  rcases Nat.lt_or_ge j 64 with h | h
  · interval_cases j <;> decide
  · rw [Nat.testBit_lt_two_pow (by
      calc (0x1249249249249249 : Nat) < 2 ^ 61 := by norm_num
      _ ≤ 2 ^ j := Nat.pow_le_pow_right (by norm_num) (by omega))]
    symm
    rw [decide_eq_false_iff_not]
    omega

set_option maxHeartbeats 2000000 in
theorem part1by2_testBit (n j : Nat) :
    (part1by2 n).testBit j =
      (decide (j % 3 = 0 ∧ j ≤ 60) && n.testBit (j / 3)) := by
  rcases Nat.lt_or_ge j 64 with h | h
  · interval_cases j <;>
      simp only [part1by2, Nat.testBit_or, Nat.testBit_and,
        Nat.testBit_shiftLeft, Nat.testBit_mod_two_pow, mask1_testBit,
        mask2_testBit, mask3_testBit, mask4_testBit, mask5_testBit,
        mask6_testBit] <;>
      simp
  · have hm : ¬ (j % 3 = 0 ∧ j ≤ 60) := by omega
    simp only [part1by2, Nat.testBit_and, mask6_testBit, decide_eq_false hm,
      Bool.and_false, Bool.false_and]

theorem morton_x_bit (c : I3) (i : Nat) (hi : i ≤ 20) :
    (morton_encode c).testBit (3 * i) =
      (to_u64 (c.x + MORTON_BIAS)).testBit i := by
  have h1 : 3 * i % 3 = 0 := by omega
  have h2 : 3 * i ≤ 60 := by omega
  have h3 : 3 * i / 3 = i := by omega
  rcases Nat.eq_zero_or_pos i with h0 | h0
  · subst h0
    simp only [morton_encode, Nat.mul_zero, Nat.testBit_or,
      Nat.testBit_mod_two_pow, Nat.testBit_shiftLeft, part1by2_testBit]
    simp
  · have h4 : (3 * i - 1) % 3 = 2 := by omega
    have h5 : (3 * i - 2) % 3 = 1 := by omega
    have h6 : (1 : Nat) ≤ 3 * i := by omega
    have h8 : 3 * i < 64 := by omega
    simp only [morton_encode, Nat.testBit_or, Nat.testBit_mod_two_pow,
      Nat.testBit_shiftLeft, part1by2_testBit, h1, h3, h4, h5]
    simp [h2, h6, h8]

theorem morton_y_bit (c : I3) (i : Nat) (hi : i ≤ 20) :
    (morton_encode c).testBit (3 * i + 1) =
      (to_u64 (c.y + MORTON_BIAS)).testBit i := by
  have h1 : (3 * i + 1) % 3 = 1 := by omega
  have h2 : (3 * i + 1) - 1 = 3 * i := by omega
  have h3 : 3 * i % 3 = 0 := by omega
  have h4 : 3 * i ≤ 60 := by omega
  have h5 : 3 * i / 3 = i := by omega
  have h6 : (1 : Nat) ≤ 3 * i + 1 := by omega
  have h8 : 3 * i + 1 < 64 := by omega
  rcases Nat.eq_zero_or_pos i with h0 | h0
  · subst h0
    simp only [morton_encode, Nat.mul_zero, Nat.zero_add, Nat.testBit_or,
      Nat.testBit_mod_two_pow, Nat.testBit_shiftLeft, part1by2_testBit]
    simp
  · have h9 : (3 * i + 1 - 2) % 3 = 2 := by omega
    simp only [morton_encode, Nat.testBit_or, Nat.testBit_mod_two_pow,
      Nat.testBit_shiftLeft, part1by2_testBit, h1, h2, h3, h5, h9]
    simp [h4, h6, h8]

theorem morton_z_bit (c : I3) (i : Nat) (hi : i ≤ 20) :
    (morton_encode c).testBit (3 * i + 2) =
      (to_u64 (c.z + MORTON_BIAS)).testBit i := by
  have h1 : (3 * i + 2) % 3 = 2 := by omega
  have h2 : (3 * i + 2) - 2 = 3 * i := by omega
  have h3 : 3 * i % 3 = 0 := by omega
  have h4 : 3 * i ≤ 60 := by omega
  have h5 : 3 * i / 3 = i := by omega
  have h6 : (1 : Nat) ≤ 3 * i + 2 := by omega
  have h7 : (2 : Nat) ≤ 3 * i + 2 := by omega
  have h8 : 3 * i + 2 < 64 := by omega
  have h9 : (3 * i + 2 - 1) % 3 = 1 := by omega
  simp only [morton_encode, Nat.testBit_or, Nat.testBit_mod_two_pow,
    Nat.testBit_shiftLeft, part1by2_testBit, h1, h2, h3, h5, h9]
  simp [h4, h6, h7, h8]

theorem to_u64_biased_lt (v : Int) (h0 : 0 ≤ v) (h1 : v < 2 ^ 21) :
    to_u64 v < 2 ^ 21 := by
  rw [to_u64_of_nonneg h0 (by
    have : (2 : Int) ^ 21 < 2 ^ 64 := by norm_num
    omega)]
  have h21 : (2 : Int) ^ 21 = 2097152 := by norm_num
  show v.toNat < 2097152
  omega

/-- C8: the Morton spatial key is injective on the supported range: two
distinct chunk coordinates whose biased components all fit in 21 bits
receive distinct keys. -/
theorem morton_encode_injective (a b : I3) (ha : in_morton_range a)
    (hb : in_morton_range b) (hne : a ≠ b) :
    morton_encode a ≠ morton_encode b := by
  intro h
  apply hne
  obtain ⟨hax0, hax1, hay0, hay1, haz0, haz1⟩ := ha
  obtain ⟨hbx0, hbx1, hby0, hby1, hbz0, hbz1⟩ := hb
  have axis : ∀ (u v : Int), 0 ≤ u → u < 2 ^ 21 → 0 ≤ v → v < 2 ^ 21 →
      (∀ i : Nat, i ≤ 20 → (to_u64 u).testBit i = (to_u64 v).testBit i) →
      u = v := by
    intro u v hu0 hu1 hv0 hv1 hbits
    have hu := to_u64_biased_lt u hu0 hu1
    have hv := to_u64_biased_lt v hv0 hv1
    have : to_u64 u = to_u64 v := by
      apply Nat.eq_of_testBit_eq
      intro i
      rcases le_or_lt i 20 with hi | hi
      · exact hbits i hi
      · rw [Nat.testBit_lt_two_pow
          (lt_of_lt_of_le hu (Nat.pow_le_pow_right (by norm_num) (by omega))),
          Nat.testBit_lt_two_pow
          (lt_of_lt_of_le hv (Nat.pow_le_pow_right (by norm_num) (by omega)))]
    have h64 : (2 : Int) ^ 21 < 2 ^ 64 := by norm_num
    rw [to_u64_of_nonneg hu0 (by omega), to_u64_of_nonneg hv0 (by omega)] at this
    omega
  have hx : a.x + MORTON_BIAS = b.x + MORTON_BIAS :=
    axis _ _ hax0 hax1 hbx0 hbx1 fun i hi => by
      rw [← morton_x_bit a i hi, ← morton_x_bit b i hi, h]
  have hy : a.y + MORTON_BIAS = b.y + MORTON_BIAS :=
    axis _ _ hay0 hay1 hby0 hby1 fun i hi => by
      rw [← morton_y_bit a i hi, ← morton_y_bit b i hi, h]
  have hz : a.z + MORTON_BIAS = b.z + MORTON_BIAS :=
    axis _ _ haz0 haz1 hbz0 hbz1 fun i hi => by
      rw [← morton_z_bit a i hi, ← morton_z_bit b i hi, h]
  have hx' : a.x = b.x := by omega
  have hy' : a.y = b.y := by omega
  have hz' : a.z = b.z := by omega
  show (⟨a.x, a.y, a.z⟩ : I3) = (⟨b.x, b.y, b.z⟩ : I3)
  rw [hx', hy', hz']

/-- Witness for C8: the distinct in-range coordinates (0,0,0) and
(1,1,1) receive distinct Morton keys. -/
theorem morton_encode_injective_witness :
    in_morton_range ⟨0, 0, 0⟩ ∧ in_morton_range ⟨1, 1, 1⟩ ∧
    (⟨0, 0, 0⟩ : I3) ≠ ⟨1, 1, 1⟩ ∧
    morton_encode ⟨0, 0, 0⟩ ≠ morton_encode ⟨1, 1, 1⟩ :=
  ⟨by decide, by decide, by decide,
   morton_encode_injective ⟨0, 0, 0⟩ ⟨1, 1, 1⟩ (by decide) (by decide)
     (by decide)⟩

end VoxelSim
